import Mathlib

/-!
Verification of the agentic-orchestration core of the Agentic-Chatbot repository.

The JavaScript sources are shallowly embedded:
* tool catalogs (JS objects keyed by tool name) become association lists
  `List (String × α)` in insertion order;
* the regular-expression tests of `lib/agent.js` become executable Boolean
  scanners over the lower-cased character list of the subject string;
* JS values that can flow through `JSON.parse` become the inductive `JsValue`;
* fallible JS code (exceptions) returns `Except`.

Unicode-specific behaviour of `toLowerCase` and `\s` is modelled on the ASCII
range, which covers every string the repository manipulates.
-/

namespace AgenticChatbot

/-! ## String scanning helpers -/

/-- `strContains s pat` holds when `pat` occurs as a contiguous substring of
`s` (the embedding of JS `String.prototype.includes`). -/
def strContains (s pat : String) : Bool :=
  (List.range (s.length + 1)).any (fun i => pat.toList.isPrefixOf (s.toList.drop i))

/-- The JS `toLowerCase()` coercion, character by character. -/
def toLowerStr (s : String) : String := String.mk (s.data.map Char.toLower)

/-- ASCII model of the JS `\s` character class. -/
def isJsSpace (c : Char) : Bool :=
  c = ' ' || c = '\t' || c = '\n' || c = '\r' || c = '\x0b' || c = '\x0c'

/-- The JS `trim()` method: strip leading and trailing whitespace. -/
def jsTrim (s : String) : String :=
  String.mk (((s.data.dropWhile isJsSpace).reverse.dropWhile isJsSpace).reverse)

/-- Drop the leading run of whitespace (the greedy `\s*` of a regex whose
continuation starts with a non-space character). -/
def skipSpaces : List Char → List Char
  | [] => []
  | c :: cs => if isJsSpace c then skipSpaces cs else c :: cs

/-! ## Regex embeddings from `lib/agent.js` -/

/-- One anchored attempt of `/confirm:\s*(true|yes)/` on a lower-cased
character list. -/
def confirmMatchAt (cs : List Char) : Bool :=
  if "confirm:".toList.isPrefixOf cs then
    let rest := skipSpaces (cs.drop 8)
    "true".toList.isPrefixOf rest || "yes".toList.isPrefixOf rest
  else false

/-- Embedding of `/confirm:\s*(true|yes)/i.test(query)` from `buildToolSet`
(`lib/agent.js` line 83): the pattern is searched case-insensitively at every
position; whitespace is tolerated after the colon only. -/
def confirmRegexTest (q : String) : Bool :=
  let cs := (toLowerStr q).toList
  (List.range (cs.length + 1)).any (fun i => confirmMatchAt (cs.drop i))

/-- The alternatives of `WRITE_NAME_RE = /(insert|update|delete|create[-_ ]?index|drop|write|bulk|merge|out)$/i`
(`lib/agent.js` line 42); `create[-_ ]?index` expands to the four explicit
spellings. -/
def writeNameSuffixes : List String :=
  ["insert", "update", "delete", "createindex", "create-index", "create_index",
   "create index", "drop", "write", "bulk", "merge", "out"]

/-- Embedding of `WRITE_NAME_RE.test(name)`: does the name end,
case-insensitively, with one of the mutating-operation suffixes? -/
def writeNameRe (name : String) : Bool :=
  writeNameSuffixes.any (fun suf => suf.toList.isSuffixOf (toLowerStr name).toList)

/-- ASCII model of the JS `\w` character class used by `\b` boundaries. -/
def isWordChar (c : Char) : Bool := c.isAlphanum || c = '_'

/-- `wordOccurs kw s`: the keyword occurs in `s` (case-insensitively) with a
word boundary on both sides, exactly as `\b…\b` matches.  All keywords start
and end with word characters, so a boundary is an adjacent non-word character
or the edge of the string. -/
def wordOccurs (kw : String) (s : String) : Bool :=
  let cs := (toLowerStr s).toList
  let ks := kw.toList
  (List.range (cs.length + 1)).any (fun i =>
    ks.isPrefixOf (cs.drop i)
    && (i == 0 || !isWordChar (cs.getD (i - 1) ' '))
    && (decide (cs.length ≤ i + ks.length) || !isWordChar (cs.getD (i + ks.length) ' ')))

/-- Keyword alternatives of the `looksDbRelated` regex
(`lib/agent.js` lines 44–46). -/
def dbKeywords : List String :=
  ["db", "database", "collection", "collections", "find", "aggregate", "count",
   "index", "indexes", "schema", "stats", "log", "logs", "explain", "collstats",
   "storage size", "size on disk", "perf", "performance", "mongodb"]

/-- Embedding of `looksDbRelated(q)` from `lib/agent.js`. -/
def looksDbRelated (q : String) : Bool :=
  dbKeywords.any (fun kw => wordOccurs kw q)

/-! ## Tool catalog operations (`lib/agent.js`) -/

/-- JS property read `all[k]` on an object embedded as an association list.
Keys of a JS object are unique, so the first binding is the binding. -/
def lookupTool {α : Type} (all : List (String × α)) (k : String) : Option α :=
  (all.find? (fun e => e.1 == k)).map (·.2)

/-- Embedding of `buildToolSet(allTools, query)` (`lib/agent.js` lines 82–92).
The catalog argument is `Option`-valued because the JS parameter may be
`undefined` (`none`); the confirmed branch returns the argument unchanged,
while the filtering branch first defaults an absent catalog to `{}`
(`allTools || {}`).  Object-entry iteration plus insertion into a fresh object
is key-preserving, hence a filter. -/
def buildToolSet {α : Type} (allTools : Option (List (String × α))) (query : String) :
    Option (List (String × α)) :=
  if confirmRegexTest query then allTools
  else some ((allTools.getD []).filter (fun e => !writeNameRe e.1))

/-- JS object insertion `filtered[k] = v`: a re-assignment of an existing key
keeps its position (and here always re-assigns the same value), so it is a
no-op on the association list. -/
def insertOnce {α : Type} (acc : List (String × α)) (k : String) (v : α) :
    List (String × α) :=
  if (acc.find? (fun e => e.1 == k)).isSome then acc else acc ++ [(k, v)]

/-- The loop body of `filterTools`: `for (const k of allowList) if (all[k]) filtered[k] = all[k]`. -/
def collectAllowed {α : Type} (all : List (String × α)) :
    List String → List (String × α) → List (String × α)
  | [], acc => acc
  | k :: ks, acc =>
    match lookupTool all k with
    | some v => collectAllowed all ks (insertOnce acc k v)
    | none => collectAllowed all ks acc

/-- Embedding of `filterTools(all, allowList)` (`lib/agent.js` lines 94–100). -/
def filterTools {α : Type} (all : List (String × α)) (allowList : List String) :
    List (String × α) :=
  if allowList.isEmpty then all
  else
    let filtered := collectAllowed all allowList []
    if filtered.isEmpty then all else filtered

/-! ## JS values

`JsValue` is the range of `JSON.parse`: exactly the JS values a parsed reply
can contain (no `undefined`, no functions).  Numbers are modelled as integers;
no claim depends on non-integral numerics. -/

inductive JsValue : Type where
  | null
  | bool (b : Bool)
  | num (n : Int)
  | str (s : String)
  | arr (elems : List JsValue)
  | obj (fields : List (String × JsValue))

/-- JS truthiness of a parsed value. -/
def truthy : JsValue → Bool
  | .null => false
  | .bool b => b
  | .num n => n != 0
  | .str s => s != ""
  | .arr _ => true
  | .obj _ => true

mutual
/-- The JS `String(v)` coercion on parsed values: arrays render as their
comma-joined elements (`Array.prototype.toString`), plain objects as
`[object Object]`. -/
def jsToString : JsValue → String
  | .null => "null"
  | .bool b => if b then "true" else "false"
  | .num n => toString n
  | .str s => s
  | .arr xs => String.intercalate "," (jsArrayItems xs)
  | .obj _ => "[object Object]"

/-- Element rendering inside `Array.prototype.toString`: `null` renders as the
empty string, every other element via `String(·)`. -/
def jsArrayItems : List JsValue → List String
  | [] => []
  | JsValue.null :: xs => "" :: jsArrayItems xs
  | v :: xs => jsToString v :: jsArrayItems xs
end

mutual
/-- Compact `JSON.stringify` on parsed values.  The repository calls
`JSON.stringify(value, null, 2)`; the indentation whitespace of the pretty
printer is not reproduced (no claim depends on it), the structure is. -/
def jsonStringify : JsValue → String
  | .null => "null"
  | .bool b => if b then "true" else "false"
  | .num n => toString n
  | .str s => "\"" ++ s ++ "\""
  | .arr xs => "[" ++ String.intercalate "," (jsonStringifyItems xs) ++ "]"
  | .obj fields =>
    "\x7b" ++ String.intercalate "," (jsonStringifyFields fields) ++ "\x7d"

/-- `jsonStringify` mapped over array elements. -/
def jsonStringifyItems : List JsValue → List String
  | [] => []
  | v :: xs => jsonStringify v :: jsonStringifyItems xs

/-- `jsonStringify` mapped over object fields. -/
def jsonStringifyFields : List (String × JsValue) → List String
  | [] => []
  | (k, v) :: fs => ("\"" ++ k ++ "\":" ++ jsonStringify v) :: jsonStringifyFields fs
end

/-- JS property read on a parsed object.  `JSON.parse` resolves duplicate keys
to the last occurrence, so the last binding wins. -/
def lookupFieldLast (fields : List (String × JsValue)) (k : String) : Option JsValue :=
  ((fields.filter (fun e => e.1 == k)).getLast?).map (·.2)

/-! ## Tool planner (`planTools`, `lib/agent.js` lines 106–135) -/

/-- `[...new Set(chosen)]`: deduplicate keeping the first occurrence of each
name. -/
def dedupFirst : List String → List String → List String
  | [], _ => []
  | x :: xs, seen =>
    if x ∈ seen then dedupFirst xs seen else x :: dedupFirst xs (x :: seen)

/-- The mapper `(t) => (t && t.name ? String(t.name) : '')` of `planTools`:
a falsy entry, an entry without a truthy `name` property, or a non-object
entry (whose `name` read gives `undefined`) all yield the empty string. -/
def planEntryName : JsValue → String
  | t =>
    if truthy t then
      match t with
      | .obj fields =>
        match lookupFieldLast fields "name" with
        | some nv => if truthy nv then jsToString nv else ""
        | none => ""
      | _ => ""
    else ""

/-- Extraction of the plan from the parsed reply value, i.e. the body of the
`try` block of `planTools` after `JSON.parse` succeeded.  `Except.error ()`
marks a thrown `TypeError`, which the surrounding `catch` turns into `[]`:
reading `.tools` on `null` throws, and calling `.map` on a truthy non-array
`tools` field throws.  A falsy or absent `tools` field is defaulted to `[]`
by `plan.tools || []`.  The proposed names are kept only when non-empty and a
key of the visible-tool mapping (`(n) => n && tools[n]`; tool descriptors are
objects, hence truthy), then deduplicated insertion-first. -/
def parsePlanValue {α : Type} (v : JsValue) (tools : List (String × α)) :
    Except Unit (List String) :=
  match v with
  | JsValue.null => Except.error ()
  | JsValue.obj fields =>
    (match lookupFieldLast fields "tools" with
     | none => Except.ok []
     | some tv =>
       if truthy tv then
         match tv with
         | JsValue.arr ts =>
           Except.ok (dedupFirst
             ((ts.map planEntryName).filter
               (fun n => n != "" && (lookupTool tools n).isSome)) [])
         | _ => Except.error ()
       else Except.ok [])
  | _ => Except.ok []

/-- Embedding of `planTools(model, historyMessages, tools)`.  The generation
call and the host `JSON.parse` are opaque collaborators, so the embedding
takes their combined outcome as input: the outer `Except` is the generation
call (`await generateText` — **outside** the `try` block, so its rejection
propagates), the inner `Except` is `JSON.parse(text || an-empty-object-literal)`
(`Except.error ()` = invalid JSON, caught).  Every caught failure inside the
`try` block degrades to the empty plan. -/
def planTools {α : Type} (genOutcome : Except Unit (Except Unit JsValue))
    (tools : List (String × α)) : Except Unit (List String) :=
  match genOutcome with
  | Except.error e => Except.error e
  | Except.ok parsed =>
    Except.ok
      (match parsed with
       | Except.error _ => []
       | Except.ok v =>
         match parsePlanValue v tools with
         | Except.error _ => []
         | Except.ok names => names)

/-! ## Execution phase (`app/api/chatbot/route.js`) -/

/-- The output of one generation call as the route consumes it: the final text
and the issued tool-call records (`none` models an absent `toolCalls` field). -/
structure ExecResult : Type where
  text : String
  toolCalls : Option (List String)

/-- The route condition `!result.toolCalls || result.toolCalls.length === 0`. -/
def hasNoToolCalls (r : ExecResult) : Bool :=
  match r.toolCalls with
  | none => true
  | some l => l.isEmpty

/-- Embedding of the database-relevance nudge (`route.js` lines 121–145): the
primary result is replaced by the result of exactly one forced retry when the
query looks database-related, the primary result issued no tool call, and the
execution tool set is non-empty; the second component counts the generation
calls consumed by this block.  The retry result stands unconditionally — the
block contains no second conditional. -/
def nudgeRetry {α : Type} (query : String) (execTools : List (String × α))
    (first retryResult : ExecResult) : ExecResult × Nat :=
  if looksDbRelated query && hasNoToolCalls first && !execTools.isEmpty then
    (retryResult, 2)
  else (first, 1)

/-- A thrown JS error as the route catch block reads it: its `name` and its
`message` (the empty string models a falsy message). -/
structure JsError : Type where
  name : String
  message : String

/-- A reply of the route handler: either the success JSON body or the error
JSON body with its HTTP status.  The error constructor carries no result
text — an error reply cannot transport partial output. -/
inductive RouteReply : Type where
  | ok (result : String) (plannedTools : List String)
  | err (error : String) (status : Nat)

/-- Embedding of the route catch block (`route.js` lines 189–194):
`err?.name === 'AbortError'` selects the fixed timeout message, any other
error surfaces `err?.message || 'Internal Error'`, always with status 500. -/
def routeCatch (e : JsError) : RouteReply :=
  RouteReply.err
    (if e.name == "AbortError" then "Timed out waiting for model/tools"
     else if e.message != "" then e.message else "Internal Error")
    500

/-- Modelled from the spec: the discrete wall-clock semantics of `withTimeout`
(`route.js` lines 19–30).  `setTimeout` and `AbortController` are host
primitives and the generation call is the model-boundary collaborator, which
the spec obliges to fail "with a distinguishable cancellation/abort condition"
when its signal fires (§5, §6): when the timer budget elapses strictly before
the call would complete, the call rejects with an `AbortError`; otherwise the
timer is cleared and the call value is returned. -/
def withTimeoutRun (budgetMs callMs : Nat) (callValue : ExecResult) :
    Except JsError ExecResult :=
  if budgetMs < callMs then
    Except.error { name := "AbortError", message := "This operation was aborted" }
  else Except.ok callValue

/-- The primary execution call of the route wrapped by `withTimeout`, composed
with the catch block: the turn either succeeds with the call result or reaches
`routeCatch`. -/
def primaryTurn (budgetMs callMs : Nat) (callValue : ExecResult)
    (planned : List String) : RouteReply :=
  match withTimeoutRun budgetMs callMs callValue with
  | Except.ok r => RouteReply.ok r.text planned
  | Except.error e => routeCatch e

/-! ## Degenerate-output guard (`ensureMeaningfulResponse`, `lib/agent.js`
lines 140–192) -/

/-- One `{type, text}` content fragment of a tool result.  `parsedEntries`
is the outcome of the host composite `Object.entries(JSON.parse(text))` used
by the document renderer: `none` models a throw (invalid JSON, or entry
enumeration of `null`), `some` the resulting key/value list. -/
structure Fragment : Type where
  type : String
  text : String
  parsedEntries : Option (List (String × JsValue))

/-- The `content` property of a tool result: either a bare fragment or an
array of fragments (`Array.isArray(result.content) ? result.content :
[result.content]`). -/
inductive JsContent : Type where
  | single (f : Fragment)
  | arr (fs : List Fragment)

/-- One entry of `toolResults`; `none` content models an absent or falsy
`content` property. -/
structure ToolResult : Type where
  content : Option JsContent

/-- The normalization `Array.isArray(result.content) ? result.content :
[result.content]`. -/
def contentList : JsContent → List Fragment
  | .single f => [f]
  | .arr fs => fs

/-- The literal searched by `textContent[0].includes` in the document
branch. -/
def idMarker : String := "\"_id\""

/-- `content.filter(c => c?.type === 'text' && c?.text)`: the text fragments
of a tool result (kept as fragments so the renderer can reach the parse
outcome of each text). -/
def textFragments (c : JsContent) : List Fragment :=
  (contentList c).filter (fun f => f.type == "text" && f.text != "")

/-- The per-document rendering of the `<= 3` branch: a parsed document prints
its non-`_id` entries, an unparseable one is echoed verbatim. -/
def renderDoc (i : Nat) (f : Fragment) : String :=
  match f.parsedEntries with
  | some entries =>
    "**Document " ++ toString (i + 1) ++ ":**\n"
      ++ String.join ((entries.filter (fun e => e.1 != "_id")).map
          (fun e => "- " ++ e.1 ++ ": " ++ jsonStringify e.2 ++ "\n"))
      ++ "\n"
  | none => f.text ++ "\n\n"

/-- The fallback built when the first text fragment contains `idMarker`:
count line, then up to 3 rendered documents or the deferral sentence. -/
def renderDocsFallback (frags : List Fragment) : String :=
  let n := frags.length
  "I found " ++ toString n ++ " document" ++ (if n != 1 then "s" else "")
    ++ " in the collection. "
    ++ (if n ≤ 3 then
          "Here are the results:\n\n"
            ++ String.join (frags.enum.map (fun p => renderDoc p.1 p.2))
        else
          "The documents contain various data. Would you like me to show specific fields or filter the results?")

/-- One iteration of the `for (const result of toolResults)` loop: a result
without content or without text fragments leaves the accumulated fallback
unchanged; otherwise the fallback is replaced — by the document summary when
the first text fragment mentions `idMarker`, else by the joined fragments. -/
def emrStep (fallback : String) (r : ToolResult) : String :=
  match r.content with
  | none => fallback
  | some c =>
    match textFragments c with
    | [] => fallback
    | f0 :: _ =>
      if strContains f0.text idMarker then renderDocsFallback (textFragments c)
      else String.intercalate "\n\n" ((textFragments c).map (·.text))

/-- The low-content token list of `ensureMeaningfulResponse`. -/
def minimalResponses : List String := ["done", "done.", "completed", "finished", "ok", "okay"]

/-- Embedding of `ensureMeaningfulResponse(text, toolResults)`.  The guard
fires only when the lower-cased, trimmed text is one of the six tokens AND
`toolResults` is a non-empty list (an `undefined` argument short-circuits the
same way as an empty list and is modelled by it); it then folds the loop over
the results starting from the stock sentence. -/
def ensureMeaningfulResponse (text : String) (toolResults : List ToolResult) : String :=
  let isMinimal := minimalResponses.contains (jsTrim (toLowerStr text))
  if isMinimal && !toolResults.isEmpty then
    toolResults.foldl emrStep "I\x27ve completed the operation. "
  else text

/-- A document-like tool result in the sense of the spec: it has content, at
least one fragment, and every fragment is a text fragment whose text mentions
the `_id` identifier field. -/
def docFragment (f : Fragment) : Bool :=
  f.type == "text" && f.text != "" && strContains f.text idMarker

/-- A tool result whose payload is document-like. -/
def docLike (r : ToolResult) : Bool :=
  match r.content with
  | none => false
  | some c => !(contentList c).isEmpty && (contentList c).all docFragment

/-! ## Byte rendering (`humanBytes`, legacy route) -/

/-- The unit ladder of `humanBytes`. -/
def byteUnits : List String := ["bytes", "KB", "MB", "GB", "TB"]

/-- The scaling loop of `humanBytes`:
`while (val >= 1024 && idx < units.length - 1) { val /= 1024; idx++; }`.
Starting from index 0 the guard `idx < 4` bounds the body to four runs, so a
fuel of 4 realizes the loop exactly. -/
def humanLoop : Nat → ℚ → Nat → ℚ × Nat
  | 0, v, idx => (v, idx)
  | fuel + 1, v, idx =>
    if 1024 ≤ v ∧ idx < byteUnits.length - 1 then humanLoop fuel (v / 1024) (idx + 1)
    else (v, idx)

/-- The JS `Number.prototype.toFixed(2)` rounding: the integer numerator of
hundredths nearest to the value, ties resolved to the larger numerator. -/
def toFixed2Int (v : ℚ) : Int := ⌊v * 100 + 1 / 2⌋

/-- Decimal rendering of a hundredths numerator with exactly two decimals. -/
def fixedRenderNat (n : Nat) : String :=
  toString (n / 100) ++ "."
    ++ (if n % 100 < 10 then "0" ++ toString (n % 100) else toString (n % 100))

/-- String form of `toFixed(2)`. -/
def toFixed2 (v : ℚ) : String :=
  let n := toFixed2Int v
  if n < 0 then "-" ++ fixedRenderNat n.natAbs else fixedRenderNat n.natAbs

/-- Embedding of `humanBytes(bytes)` on finite numerics (the rational model
has no `NaN`/`Infinity`, so the `Number.isFinite` guard of the source never
fires). -/
def humanBytes (b : ℚ) : String :=
  let p := humanLoop 4 b 0
  toFixed2 p.1 ++ " " ++ byteUnits.getD p.2 "bytes"

/-- The value-and-unit key that `humanBytes` renders: unit index first, then
the rounded hundredths of the scaled value. -/
def humanKey (b : ℚ) : Nat × Int :=
  let p := humanLoop 4 b 0
  (p.2, toFixed2Int p.1)

/-- Order on rendered keys: a smaller unit precedes a larger one, and inside
one unit the rounded scaled values compare. -/
def keyLe (a b : Nat × Int) : Prop := a.1 < b.1 ∨ (a.1 = b.1 ∧ a.2 ≤ b.2)

/-- Interval characterization of the unit index the scaling loop reaches
(proof device for the loop lemmas below). -/
def uIdx (b : ℚ) : Nat :=
  if b < 1024 then 0
  else if b < 1024 ^ 2 then 1
  else if b < 1024 ^ 3 then 2
  else if b < 1024 ^ 4 then 3
  else 4

/-- Concrete document-like payload used by witnesses: one text fragment
containing an `_id` field, together with its parse outcome. -/
def witFrag : Fragment :=
  ⟨"text", "\x7b\"_id\": 1, \"name\": \"bob\"\x7d",
   some [("_id", JsValue.num 1), ("name", JsValue.str "bob")]⟩

/-- A tool result carrying `witFrag`. -/
def witDocResult : ToolResult := ⟨some (JsContent.arr [witFrag])⟩

/-! ## Conversation building (`route.js` lines 33–46) -/

/-- A raw client-supplied history entry: an arbitrary `role` string and an
arbitrary (possibly absent) `content` value. -/
structure RawMsg : Type where
  role : String
  content : Option JsValue

/-- A message the route sends to a generation call. -/
structure ChatMsg : Type where
  role : String
  content : String

/-- `m.content ?? ''`: nullish content collapses to the empty string before
`String(·)` is applied. -/
def nullishToEmpty : Option JsValue → JsValue
  | none => JsValue.str ""
  | some JsValue.null => JsValue.str ""
  | some v => v

/-- Embedding of `sanitizeHistory(msgs)`: client entries that are falsy
(`none`) or whose role is neither `user` nor `assistant` are dropped; the
survivors are rebuilt with stringified content. -/
def sanitizeHistory (msgs : List (Option RawMsg)) : List ChatMsg :=
  ((msgs.filterMap id).filter
      (fun m => m.role == "user" || m.role == "assistant")).map
    (fun m => ⟨m.role, jsToString (nullishToEmpty m.content)⟩)

/-- Embedding of `buildConversation(systemText, history, userQuery)`: one
system message first, the sanitized history, the current user query last. -/
def buildConversation (systemText : String) (history : List (Option RawMsg))
    (userQuery : String) : List ChatMsg :=
  ⟨"system", systemText⟩ :: (sanitizeHistory history ++ [⟨"user", userQuery⟩])

/-! ## Supporting lemmas -/

lemma collectAllowed_none {α : Type} (all : List (String × α)) :
    ∀ (ks : List String) (acc : List (String × α)),
      (∀ k ∈ ks, lookupTool all k = none) → collectAllowed all ks acc = acc
  | [], _, _ => rfl
  | k :: ks, acc, h => by
    have hk : lookupTool all k = none := h k (List.mem_cons_self k ks)
    unfold collectAllowed
    rw [hk]
    exact collectAllowed_none all ks acc (fun x hx => h x (List.mem_cons_of_mem _ hx))

lemma not_mem_dedupFirst : ∀ (l seen : List String) (x : String),
    x ∈ seen → x ∉ dedupFirst l seen
  | [], _, _, _ => by simp [dedupFirst]
  | y :: ys, seen, x, hx => by
    unfold dedupFirst
    by_cases hy : y ∈ seen
    · rw [if_pos hy]
      exact not_mem_dedupFirst ys seen x hx
    · rw [if_neg hy]
      intro hmem
      rcases List.mem_cons.mp hmem with heq | hmem'
      · exact hy (heq ▸ hx)
      · exact not_mem_dedupFirst ys (y :: seen) x (List.mem_cons_of_mem _ hx) hmem'

lemma dedupFirst_nodup : ∀ (l seen : List String), (dedupFirst l seen).Nodup
  | [], _ => by simp [dedupFirst]
  | y :: ys, seen => by
    unfold dedupFirst
    by_cases hy : y ∈ seen
    · rw [if_pos hy]
      exact dedupFirst_nodup ys seen
    · rw [if_neg hy]
      exact List.nodup_cons.mpr
        ⟨not_mem_dedupFirst ys (y :: seen) y (List.mem_cons_self y seen),
         dedupFirst_nodup ys (y :: seen)⟩

lemma mem_dedupFirst_sub : ∀ (l seen : List String) (x : String),
    x ∈ dedupFirst l seen → x ∈ l
  | [], _, x, h => by simp [dedupFirst] at h
  | y :: ys, seen, x, h => by
    unfold dedupFirst at h
    by_cases hy : y ∈ seen
    · rw [if_pos hy] at h
      exact List.mem_cons_of_mem _ (mem_dedupFirst_sub ys seen x h)
    · rw [if_neg hy] at h
      rcases List.mem_cons.mp h with rfl | h'
      · exact List.mem_cons_self _ _
      · exact List.mem_cons_of_mem _ (mem_dedupFirst_sub ys (y :: seen) x h')

lemma parsePlanValue_ok {α : Type} (v : JsValue) (tools : List (String × α))
    (names : List String) (h : parsePlanValue v tools = Except.ok names) :
    names.Nodup ∧ ∀ n ∈ names, (lookupTool tools n).isSome = true := by
  unfold parsePlanValue at h
  split at h
  · exact absurd h (by simp)
  · split at h
    · cases h
      exact ⟨List.nodup_nil, by simp⟩
    · split at h
      · split at h
        · cases h
          refine ⟨dedupFirst_nodup _ _, ?_⟩
          intro n hn
          have hmem := mem_dedupFirst_sub _ _ _ hn
          have hp := (List.mem_filter.mp hmem).2
          simp only [Bool.and_eq_true] at hp
          exact hp.2
        · exact absurd h (by simp)
      · cases h
        exact ⟨List.nodup_nil, by simp⟩
  · cases h
    exact ⟨List.nodup_nil, by simp⟩

lemma sanitizeHistory_roles (h : List (Option RawMsg)) :
    ∀ m ∈ sanitizeHistory h, m.role = "user" ∨ m.role = "assistant" := by
  intro m hm
  unfold sanitizeHistory at hm
  obtain ⟨m', hm', rfl⟩ := List.mem_map.mp hm
  have hrole := (List.mem_filter.mp hm').2
  simp only [Bool.or_eq_true, beq_iff_eq] at hrole
  exact hrole

/-! ## Claim theorems -/

/-- C1: for every tool catalog and query text, `buildToolSet` returns the full
catalog unmodified when the query matches the case-insensitive confirmation
pattern (`confirm:` followed by optional whitespace and `true` or `yes`);
otherwise it returns exactly the entries whose name does not end,
case-insensitively, with one of the mutating-operation suffixes of
`WRITE_NAME_RE` (insert, update, delete, the `create…index` spellings, drop,
write, bulk, merge, out). -/
theorem buildToolSet_visibility_gate {α : Type} (tools : List (String × α)) (q : String) :
    (confirmRegexTest q = true → buildToolSet (some tools) q = some tools) ∧
    (confirmRegexTest q = false →
      ∃ res, buildToolSet (some tools) q = some res ∧
        ∀ n d, (n, d) ∈ res ↔ ((n, d) ∈ tools ∧ writeNameRe n = false)) := by
  constructor
  · intro h
    simp [buildToolSet, h]
  · intro h
    refine ⟨tools.filter (fun e => !writeNameRe e.1), by simp [buildToolSet, h], ?_⟩
    intro n d
    simp [List.mem_filter]

theorem buildToolSet_visibility_gate_witness :
    (confirmRegexTest "delete users, confirm: true" = true ∧
      buildToolSet (some [("db.insert", 1), ("find", 2)]) "delete users, confirm: true"
        = some [("db.insert", 1), ("find", 2)]) ∧
    (confirmRegexTest "list users" = false ∧
      ∃ res, buildToolSet (some [("db.insert", 1), ("find", 2)]) "list users" = some res ∧
        ∀ n d, (n, d) ∈ res ↔
          ((n, d) ∈ [("db.insert", 1), ("find", 2)] ∧ writeNameRe n = false)) :=
  ⟨⟨by decide,
    (buildToolSet_visibility_gate [("db.insert", 1), ("find", 2)]
      "delete users, confirm: true").1 (by decide)⟩,
   ⟨by decide,
    (buildToolSet_visibility_gate [("db.insert", 1), ("find", 2)] "list users").2
      (by decide)⟩⟩

/-- C2: the plan filter is fail-open: an empty allow list returns the visible
mapping unchanged; an allow list none of whose names is a visible key returns
the visible mapping; a singleton allow list naming a visible key returns
exactly that binding; and the result is never empty when the visible mapping
is non-empty. -/
theorem filterTools_fail_open {α : Type} (visible : List (String × α))
    (names : List String) (a : String) (v : α) :
    filterTools visible [] = visible ∧
    ((∀ k ∈ names, lookupTool visible k = none) → filterTools visible names = visible) ∧
    (lookupTool visible a = some v → filterTools visible [a] = [(a, v)]) ∧
    (visible ≠ [] → filterTools visible names ≠ []) := by
  refine ⟨rfl, ?_, ?_, ?_⟩
  · intro h
    cases names with
    | nil => rfl
    | cons k ks =>
      unfold filterTools
      rw [collectAllowed_none visible (k :: ks) [] h]
      simp
  · intro h
    simp [filterTools, collectAllowed, h, insertOnce]
  · intro hvis
    unfold filterTools
    by_cases h1 : names.isEmpty
    · rw [if_pos h1]
      exact hvis
    · rw [if_neg h1]
      show (if (collectAllowed visible names []).isEmpty = true then visible
        else collectAllowed visible names []) ≠ []
      by_cases h2 : (collectAllowed visible names []).isEmpty
      · rw [if_pos h2]
        exact hvis
      · rw [if_neg h2]
        intro hnil
        rw [hnil] at h2
        exact h2 rfl

theorem filterTools_fail_open_witness :
    filterTools [("a", 1), ("b", 2)] [] = [("a", 1), ("b", 2)] ∧
    ((∀ k ∈ ["zz"], lookupTool [("a", 1), ("b", 2)] k = none) ∧
      filterTools [("a", 1), ("b", 2)] ["zz"] = [("a", 1), ("b", 2)]) ∧
    (lookupTool [("a", 1), ("b", 2)] "a" = some 1 ∧
      filterTools [("a", 1), ("b", 2)] ["a"] = [("a", 1)]) ∧
    ([("a", 1), ("b", 2)] ≠ ([] : List (String × Nat)) ∧
      filterTools [("a", 1), ("b", 2)] ["zz"] ≠ []) :=
  ⟨(filterTools_fail_open [("a", 1), ("b", 2)] ["zz"] "a" 1).1,
   ⟨by decide, (filterTools_fail_open [("a", 1), ("b", 2)] ["zz"] "a" 1).2.1 (by decide)⟩,
   ⟨by decide, (filterTools_fail_open [("a", 1), ("b", 2)] ["zz"] "a" 1).2.2.1 (by decide)⟩,
   ⟨by decide, (filterTools_fail_open [("a", 1), ("b", 2)] ["zz"] "a" 1).2.2.2 (by decide)⟩⟩

/-- C3 counterexample: an exception of the generation call is **not** caught
by `planTools` — `await generateText` stands outside the `try` block — so it
propagates instead of degrading to the empty name list. -/
theorem planTools_generation_error_propagates :
    planTools (Except.error ()) [("find", 1)] = Except.error () ∧
    planTools (Except.error ()) [("find", 1)] ≠ Except.ok [] :=
  ⟨rfl, fun h => Except.noConfusion h⟩

/-- C3 amended: an exception during parsing of the reply yields the empty
name list, but an exception of the generation call itself propagates to the
caller; whenever the generation call succeeds, `planTools` returns a
duplicate-free list every element of which is a key of the supplied
visible-tool mapping. -/
theorem planTools_validated_names {α : Type} (gen : Except Unit (Except Unit JsValue))
    (tools : List (String × α)) :
    (∀ u, gen = Except.error u → planTools gen tools = Except.error u) ∧
    ∀ parsed, gen = Except.ok parsed →
      ∃ names, planTools gen tools = Except.ok names ∧ names.Nodup ∧
        ∀ n ∈ names, (lookupTool tools n).isSome = true := by
  constructor
  · rintro u rfl
    rfl
  · rintro parsed rfl
    cases parsed with
    | error e => exact ⟨[], rfl, List.nodup_nil, by simp⟩
    | ok v =>
      cases hp : parsePlanValue v tools with
      | error e =>
        refine ⟨[], ?_, List.nodup_nil, by simp⟩
        simp [planTools, hp]
      | ok names =>
        obtain ⟨hn, hm⟩ := parsePlanValue_ok v tools names hp
        exact ⟨names, by simp [planTools, hp], hn, hm⟩

theorem planTools_validated_names_witness :
    ∃ names, planTools (Except.ok (Except.error ())) [("find", 1)] = Except.ok names ∧
      names.Nodup ∧ ∀ n ∈ names, (lookupTool [("find", 1)] n).isSome = true :=
  (planTools_validated_names (Except.ok (Except.error ())) [("find", 1)]).2
    (Except.error ()) rfl

/-- C4: when the wall-clock budget elapses strictly before the primary
execution call completes, the turn is answered by the catch block with the
fixed timeout error and status 500, never with a success reply carrying text;
and no non-abort failure whose own message differs from the fixed timeout
string can produce the same error reply. -/
theorem execution_timeout_reply (budgetMs callMs : Nat) (callValue : ExecResult)
    (planned : List String) (h : budgetMs < callMs) :
    primaryTurn budgetMs callMs callValue planned
      = RouteReply.err "Timed out waiting for model/tools" 500 ∧
    (∀ s p, primaryTurn budgetMs callMs callValue planned ≠ RouteReply.ok s p) ∧
    ∀ e : JsError, e.name ≠ "AbortError" →
      e.message ≠ "Timed out waiting for model/tools" →
      routeCatch e ≠ RouteReply.err "Timed out waiting for model/tools" 500 := by
  have habort : primaryTurn budgetMs callMs callValue planned
      = RouteReply.err "Timed out waiting for model/tools" 500 := by
    simp [primaryTurn, withTimeoutRun, h, routeCatch]
  refine ⟨habort, ?_, ?_⟩
  · intro s p
    rw [habort]
    exact fun hc => RouteReply.noConfusion hc
  · intro e hn hm hc
    unfold routeCatch at hc
    have := (RouteReply.err.injEq _ _ _ _).mp hc
    rcases this with ⟨hmsg, -⟩
    rw [if_neg (by simpa using hn)] at hmsg
    by_cases hme : e.message = ""
    · rw [hme] at hmsg
      simp at hmsg
    · rw [if_pos (by simpa using hme)] at hmsg
      exact hm hmsg

theorem execution_timeout_reply_witness :
    10 < 50 ∧
    primaryTurn 10 50 ⟨"partial text", none⟩ []
      = RouteReply.err "Timed out waiting for model/tools" 500 :=
  ⟨by decide, (execution_timeout_reply 10 50 ⟨"partial text", none⟩ [] (by decide)).1⟩

/-- C6: the database-relevance nudge consumes a second generation call
exactly when the query matches the lexical database predicate, the primary
result contains zero tool-call records, and the execution tool set is
non-empty; in that case the retry result stands unconditionally (no second
retry is possible), otherwise the primary result stands after one call. -/
theorem nudge_single_retry {α : Type} (q : String) (tools : List (String × α))
    (first retryResult : ExecResult) :
    ((nudgeRetry q tools first retryResult).2 = 2 ↔
      (looksDbRelated q && hasNoToolCalls first && !tools.isEmpty) = true) ∧
    ((looksDbRelated q && hasNoToolCalls first && !tools.isEmpty) = true →
      nudgeRetry q tools first retryResult = (retryResult, 2)) ∧
    ((looksDbRelated q && hasNoToolCalls first && !tools.isEmpty) = false →
      nudgeRetry q tools first retryResult = (first, 1)) := by
  unfold nudgeRetry
  cases hc : (looksDbRelated q && hasNoToolCalls first && !tools.isEmpty) <;> simp [hc]

theorem nudge_single_retry_witness :
    (looksDbRelated "count users" && hasNoToolCalls ⟨"Done.", none⟩
        && !([("find", 1)] : List (String × Nat)).isEmpty) = true ∧
    nudgeRetry "count users" [("find", 1)] ⟨"Done.", none⟩ ⟨"interpreted", some []⟩
      = (⟨"interpreted", some []⟩, 2) :=
  ⟨by decide,
   (nudge_single_retry "count users" [("find", 1)] ⟨"Done.", none⟩
       ⟨"interpreted", some []⟩).2.1 (by decide)⟩

/-- C8 counterexample: applying the visibility gate to an absent catalog with
a query containing the confirmation token returns the absent value itself —
the confirmed branch bypasses the `allTools || an-empty-object` default — and
not an empty mapping. -/
theorem buildToolSet_absent_confirmed_not_mapping :
    buildToolSet (α := Nat) none "confirm: true" = none ∧
    buildToolSet (α := Nat) none "confirm: true" ≠ some [] := by
  have h1 : buildToolSet (α := Nat) none "confirm: true" = none := by decide
  refine ⟨h1, ?_⟩
  rw [h1]
  intro h
  exact Option.noConfusion h

/-- C8 amended: the gate raises no error; an empty catalog yields an empty
mapping for every query, and an absent catalog yields an empty mapping for
every non-confirming query — but a confirming query returns the absent
catalog value unchanged instead of a mapping. -/
theorem buildToolSet_absent_empty_catalog {α : Type} (q : String) :
    buildToolSet (some ([] : List (String × α))) q = some [] ∧
    (confirmRegexTest q = false → buildToolSet (α := α) none q = some []) ∧
    (confirmRegexTest q = true → buildToolSet (α := α) none q = none) := by
  refine ⟨?_, ?_, ?_⟩
  · by_cases h : confirmRegexTest q <;> simp [buildToolSet, h]
  · intro h
    simp [buildToolSet, h]
  · intro h
    simp [buildToolSet, h]

theorem buildToolSet_absent_empty_catalog_witness :
    (confirmRegexTest "hi" = false ∧ buildToolSet (α := Nat) none "hi" = some []) ∧
    (confirmRegexTest "confirm: yes" = true ∧
      buildToolSet (α := Nat) none "confirm: yes" = none) :=
  ⟨⟨by decide, (buildToolSet_absent_empty_catalog (α := Nat) "hi").2.1 (by decide)⟩,
   ⟨by decide, (buildToolSet_absent_empty_catalog (α := Nat) "confirm: yes").2.2 (by decide)⟩⟩

/-- C10: every conversation the route builds for the primary execution call
and for the nudge retry starts with exactly one system message at index 0,
and every later message has role `user` or `assistant` — client-supplied
history entries with any other role are dropped by sanitization. -/
theorem conversation_single_system_message (s : String) (h : List (Option RawMsg))
    (q : String) :
    (buildConversation s h q).head? = some ⟨"system", s⟩ ∧
    ((buildConversation s h q).filter (fun m => m.role == "system")).length = 1 ∧
    ∀ m ∈ (buildConversation s h q).tail, m.role = "user" ∨ m.role = "assistant" := by
  have htail : ∀ m ∈ sanitizeHistory h ++ [(⟨"user", q⟩ : ChatMsg)],
      m.role = "user" ∨ m.role = "assistant" := by
    intro m hm
    rcases List.mem_append.mp hm with h1 | h1
    · exact sanitizeHistory_roles h m h1
    · rcases List.mem_singleton.mp h1 with rfl
      exact Or.inl rfl
  refine ⟨rfl, ?_, htail⟩
  have hnil : (sanitizeHistory h ++ [(⟨"user", q⟩ : ChatMsg)]).filter
      (fun m => m.role == "system") = [] := by
    rw [List.filter_eq_nil_iff]
    intro m hm
    rcases htail m hm with h1 | h1 <;> simp [h1]
  unfold buildConversation
  rw [List.filter_cons]
  simp only [hnil]
  simp

theorem conversation_single_system_message_witness :
    (buildConversation "SYS" [some ⟨"system", some (JsValue.str "evil")⟩] "hi").head?
      = some ⟨"system", "SYS"⟩ ∧
    ((buildConversation "SYS" [some ⟨"system", some (JsValue.str "evil")⟩] "hi").filter
      (fun m => m.role == "system")).length = 1 :=
  ⟨(conversation_single_system_message "SYS" [some ⟨"system", some (JsValue.str "evil")⟩] "hi").1,
   (conversation_single_system_message "SYS" [some ⟨"system", some (JsValue.str "evil")⟩] "hi").2.1⟩

/-! ## Guard lemmas (C5, C7) -/

lemma isPrefixOf_self_append (l t : List Char) : l.isPrefixOf (l ++ t) = true := by
  induction l with
  | nil => simp [List.isPrefixOf]
  | cons a as ih => simp [List.isPrefixOf, ih]

lemma strContains_left (pat tail : String) : strContains (pat ++ tail) pat = true := by
  unfold strContains
  rw [List.any_eq_true]
  refine ⟨0, List.mem_range.mpr (Nat.succ_pos _), ?_⟩
  have hdata : (pat ++ tail).toList = pat.toList ++ tail.toList := String.data_append pat tail
  simp only [List.drop_zero, hdata]
  exact isPrefixOf_self_append _ _

lemma string_append_length (a b : String) : (a ++ b).length = a.length + b.length := by
  show (a ++ b).data.length = a.data.length + b.data.length
  rw [String.data_append, List.length_append]

lemma renderDocsFallback_shape (frags : List Fragment) :
    ∃ tail : String, renderDocsFallback frags
      = ("I found " ++ toString frags.length ++ " document") ++ tail := by
  refine ⟨(if frags.length != 1 then "s" else "")
    ++ (" in the collection. "
      ++ (if frags.length ≤ 3 then
            "Here are the results:\n\n"
              ++ String.join (frags.enum.map (fun p => renderDoc p.1 p.2))
          else
            "The documents contain various data. Would you like me to show specific fields or filter the results?")), ?_⟩
  unfold renderDocsFallback
  simp [String.append_assoc]

lemma renderDocsFallback_props (frags : List Fragment) :
    strContains (renderDocsFallback frags)
      ("I found " ++ toString frags.length ++ " document") = true ∧
    renderDocsFallback frags ≠ "Done." := by
  obtain ⟨tail, htail⟩ := renderDocsFallback_shape frags
  constructor
  · rw [htail]
    exact strContains_left _ _
  · rw [htail]
    intro h
    have hlen := congrArg String.length h
    rw [string_append_length, string_append_length, string_append_length] at hlen
    have h8 : ("I found " : String).length = 8 := by decide
    have h9 : (" document" : String).length = 9 := by decide
    have h5 : ("Done." : String).length = 5 := by decide
    rw [h8, h9, h5] at hlen
    omega

lemma emrStep_docLike (init : String) (r : ToolResult) (h : docLike r = true) :
    ∃ frags : List Fragment, frags ≠ [] ∧ emrStep init r = renderDocsFallback frags := by
  obtain ⟨rc⟩ := r
  cases rc with
  | none => exact absurd h (by simp [docLike])
  | some c =>
    have hd : docLike ⟨some c⟩
        = (!(contentList c).isEmpty && (contentList c).all docFragment) := rfl
    rw [hd] at h
    simp only [Bool.and_eq_true] at h
    obtain ⟨hne, hall⟩ := h
    have hnee : (contentList c).isEmpty = false := by
      revert hne
      cases (contentList c).isEmpty <;> simp
    have hallm := List.all_eq_true.mp hall
    have hfilter : textFragments c = contentList c := by
      unfold textFragments
      apply List.filter_eq_self.mpr
      intro f hf
      have hdd := hallm f hf
      unfold docFragment at hdd
      simp only [Bool.and_eq_true] at hdd
      rw [Bool.and_eq_true]
      exact ⟨by tauto, by tauto⟩
    cases hcl : contentList c with
    | nil =>
      rw [hcl] at hnee
      exact absurd hnee (by simp)
    | cons f0 rest =>
      have hf0 := hallm f0 (by rw [hcl]; exact List.mem_cons_self _ _)
      have hcontains : strContains f0.text idMarker = true := by
        unfold docFragment at hf0
        simp only [Bool.and_eq_true] at hf0
        tauto
      refine ⟨f0 :: rest, List.cons_ne_nil _ _, ?_⟩
      have he : emrStep init ⟨some c⟩
          = (match textFragments c with
             | [] => init
             | f0 :: _ =>
               if strContains f0.text idMarker then renderDocsFallback (textFragments c)
               else String.intercalate "\n\n" ((textFragments c).map (·.text))) := rfl
      rw [he, hfilter, hcl]
      show (if strContains f0.text idMarker = true then renderDocsFallback (f0 :: rest)
        else String.intercalate "\n\n" ((f0 :: rest).map (·.text)))
        = renderDocsFallback (f0 :: rest)
      rw [if_pos hcontains]

lemma foldl_emrStep_docLike :
    ∀ (trs : List ToolResult) (init : String), trs ≠ [] →
      (∀ r ∈ trs, docLike r = true) →
      ∃ frags : List Fragment, frags ≠ [] ∧
        trs.foldl emrStep init = renderDocsFallback frags
  | [], _, hne, _ => absurd rfl hne
  | [r], init, _, hall => by
    simp only [List.foldl]
    exact emrStep_docLike init r (hall r (List.mem_cons_self _ _))
  | r :: r2 :: rest, init, _, hall => by
    simp only [List.foldl]
    exact foldl_emrStep_docLike (r2 :: rest) (emrStep init r) (List.cons_ne_nil _ _)
      (fun x hx => hall x (List.mem_cons_of_mem _ hx))

lemma ensureMeaningfulResponse_fires (text : String) (trs : List ToolResult)
    (hmin : minimalResponses.contains (jsTrim (toLowerStr text)) = true)
    (hne : trs ≠ []) :
    ensureMeaningfulResponse text trs
      = trs.foldl emrStep "I\x27ve completed the operation. " := by
  have hemp : trs.isEmpty = false := by
    cases trs
    · exact absurd rfl hne
    · rfl
  show (if minimalResponses.contains (jsTrim (toLowerStr text)) && !trs.isEmpty then
      trs.foldl emrStep "I\x27ve completed the operation. " else text)
    = trs.foldl emrStep "I\x27ve completed the operation. "
  rw [hmin, hemp]
  simp

/-- C5: for every non-empty tool-result list whose payloads are document-like
(every text fragment mentions the `_id` identifier field), the guard applied
to the final text `Done.` produces an output different from `Done.` that
mentions a positive count of documents found. -/
theorem guard_done_doc_payloads (trs : List ToolResult) (hne : trs ≠ [])
    (hdoc : ∀ r ∈ trs, docLike r = true) :
    ensureMeaningfulResponse "Done." trs ≠ "Done." ∧
    ∃ k : Nat, 0 < k ∧
      strContains (ensureMeaningfulResponse "Done." trs)
        ("I found " ++ toString k ++ " document") = true := by
  have hem := ensureMeaningfulResponse_fires "Done." trs (by decide) hne
  obtain ⟨frags, hfne, hfold⟩ :=
    foldl_emrStep_docLike trs "I\x27ve completed the operation. " hne hdoc
  rw [hem, hfold]
  obtain ⟨hcont, hneq⟩ := renderDocsFallback_props frags
  exact ⟨hneq, frags.length, List.length_pos.mpr hfne, hcont⟩

theorem guard_done_doc_payloads_witness :
    ([witDocResult] ≠ []) ∧ (∀ r ∈ [witDocResult], docLike r = true) ∧
    (ensureMeaningfulResponse "Done." [witDocResult] ≠ "Done." ∧
      ∃ k : Nat, 0 < k ∧
        strContains (ensureMeaningfulResponse "Done." [witDocResult])
          ("I found " ++ toString k ++ " document") = true) :=
  ⟨List.cons_ne_nil _ _, by decide,
   guard_done_doc_payloads [witDocResult] (List.cons_ne_nil _ _) (by decide)⟩

/-- C7 counterexample: a final text below the 20-character threshold that is
not one of the six low-content tokens is returned **unchanged** by the guard
even though the tool results are non-empty and document-like — the fallback
of `ensureMeaningfulResponse` tests only the token list, not the length
threshold used by the route retry trigger. -/
theorem guard_short_text_unchanged :
    ("All good." : String).length < 20 ∧
    minimalResponses.contains (jsTrim (toLowerStr "All good.")) = false ∧
    docLike witDocResult = true ∧
    ensureMeaningfulResponse "All good." [witDocResult] = "All good." := by
  refine ⟨by decide, by decide, by decide, by decide⟩

/-- C7 amended: the deterministic fallback fires exactly for the six
low-content tokens: when the trimmed, case-folded final text equals one of
them and `toolResults` is non-empty, the guard returns the fallback built
from the tool results alone — independent of which token-minimal text was
given — while a short final text outside the token list passes through
unchanged. -/
theorem guard_token_minimal_fallback (text : String) (trs : List ToolResult)
    (hmin : minimalResponses.contains (jsTrim (toLowerStr text)) = true)
    (hne : trs ≠ []) :
    ensureMeaningfulResponse text trs
      = trs.foldl emrStep "I\x27ve completed the operation. " ∧
    ∀ text', minimalResponses.contains (jsTrim (toLowerStr text')) = true →
      ensureMeaningfulResponse text trs = ensureMeaningfulResponse text' trs := by
  refine ⟨ensureMeaningfulResponse_fires text trs hmin hne, ?_⟩
  intro text' hmin'
  rw [ensureMeaningfulResponse_fires text trs hmin hne,
    ensureMeaningfulResponse_fires text' trs hmin' hne]

theorem guard_token_minimal_fallback_witness :
    minimalResponses.contains (jsTrim (toLowerStr "  OKAY ")) = true ∧
    ([witDocResult] ≠ []) ∧
    ensureMeaningfulResponse "  OKAY " [witDocResult]
      = [witDocResult].foldl emrStep "I\x27ve completed the operation. " :=
  ⟨by decide, List.cons_ne_nil _ _,
   (guard_token_minimal_fallback "  OKAY " [witDocResult] (by decide)
     (List.cons_ne_nil _ _)).1⟩

/-! ## Byte-rendering lemmas (C9) -/

lemma humanLoop_stop (fuel : Nat) (v : ℚ) (idx : Nat) (h : ¬ 1024 ≤ v) :
    humanLoop fuel v idx = (v, idx) := by
  cases fuel with
  | zero => rfl
  | succ n =>
    unfold humanLoop
    rw [if_neg]
    intro hc
    exact h hc.1

lemma humanLoop_step (fuel : Nat) (v : ℚ) (idx : Nat) (h : 1024 ≤ v) (hidx : idx < 4) :
    humanLoop (fuel + 1) v idx = humanLoop fuel (v / 1024) (idx + 1) := by
  have h4 : byteUnits.length - 1 = 4 := by decide
  have hcond : 1024 ≤ v ∧ idx < byteUnits.length - 1 := by
    refine ⟨h, ?_⟩
    rw [h4]
    exact hidx
  conv_lhs => unfold humanLoop
  rw [if_pos hcond]

lemma le_div_pow (b : ℚ) (k : Nat) : 1024 ≤ b / 1024 ^ k ↔ 1024 ^ (k + 1) ≤ b := by
  rw [le_div_iff₀ (by positivity : (0:ℚ) < 1024 ^ k), pow_succ,
    mul_comm ((1024:ℚ) ^ k) 1024]

lemma div_pow_lt (b : ℚ) (k : Nat) : b / 1024 ^ k < 1024 ↔ b < 1024 ^ (k + 1) := by
  rw [div_lt_iff₀ (by positivity : (0:ℚ) < 1024 ^ k), pow_succ,
    mul_comm ((1024:ℚ) ^ k) 1024]

lemma div_pow_succ (b : ℚ) (k : Nat) : b / 1024 ^ k / 1024 = b / 1024 ^ (k + 1) := by
  rw [div_div, pow_succ]

lemma humanLoop_eq (b : ℚ) : humanLoop 4 b 0 = (b / 1024 ^ uIdx b, uIdx b) := by
  unfold uIdx
  have e1 : b / 1024 = b / 1024 ^ 1 := by rw [pow_one]
  split_ifs with h1 h2 h3 h4
  · rw [humanLoop_stop 4 b 0 (not_le.mpr h1)]
    norm_num
  · have hb : 1024 ≤ b := not_lt.mp h1
    rw [humanLoop_step 3 b 0 hb (by omega), e1,
      humanLoop_stop 3 _ 1 (not_le.mpr ((div_pow_lt b 1).mpr h2))]
  · have hb : 1024 ≤ b := not_lt.mp h1
    have hb1 : 1024 ≤ b / 1024 ^ 1 := (le_div_pow b 1).mpr (not_lt.mp h2)
    rw [humanLoop_step 3 b 0 hb (by omega), e1,
      humanLoop_step 2 _ 1 hb1 (by omega), div_pow_succ,
      humanLoop_stop 2 _ 2 (not_le.mpr ((div_pow_lt b 2).mpr h3))]
  · have hb : 1024 ≤ b := not_lt.mp h1
    have hb1 : 1024 ≤ b / 1024 ^ 1 := (le_div_pow b 1).mpr (not_lt.mp h2)
    have hb2 : 1024 ≤ b / 1024 ^ 2 := (le_div_pow b 2).mpr (not_lt.mp h3)
    rw [humanLoop_step 3 b 0 hb (by omega), e1,
      humanLoop_step 2 _ 1 hb1 (by omega), div_pow_succ,
      humanLoop_step 1 _ 2 hb2 (by omega), div_pow_succ,
      humanLoop_stop 1 _ 3 (not_le.mpr ((div_pow_lt b 3).mpr h4))]
  · have hb : 1024 ≤ b := not_lt.mp h1
    have hb1 : 1024 ≤ b / 1024 ^ 1 := (le_div_pow b 1).mpr (not_lt.mp h2)
    have hb2 : 1024 ≤ b / 1024 ^ 2 := (le_div_pow b 2).mpr (not_lt.mp h3)
    have hb3 : 1024 ≤ b / 1024 ^ 3 := (le_div_pow b 3).mpr (not_lt.mp h4)
    rw [humanLoop_step 3 b 0 hb (by omega), e1,
      humanLoop_step 2 _ 1 hb1 (by omega), div_pow_succ,
      humanLoop_step 1 _ 2 hb2 (by omega), div_pow_succ,
      humanLoop_step 0 _ 3 hb3 (by omega), div_pow_succ]
    norm_num [humanLoop]

lemma humanKey_eq (b : ℚ) : humanKey b = (uIdx b, toFixed2Int (b / 1024 ^ uIdx b)) := by
  unfold humanKey
  rw [humanLoop_eq b]

lemma uIdx_mono {b1 b2 : ℚ} (h : b1 ≤ b2) : uIdx b1 ≤ uIdx b2 := by
  unfold uIdx
  have p2 : (1024:ℚ) ^ 2 = 1048576 := by norm_num
  have p3 : (1024:ℚ) ^ 3 = 1073741824 := by norm_num
  have p4 : (1024:ℚ) ^ 4 = 1099511627776 := by norm_num
  rw [p2, p3, p4]
  split_ifs <;> first | omega | (exfalso; linarith)

lemma toFixed2Int_mono {a b : ℚ} (h : a ≤ b) : toFixed2Int a ≤ toFixed2Int b := by
  unfold toFixed2Int
  exact Int.floor_le_floor (by linarith)

lemma humanKey_mono {b1 b2 : ℚ} (h : b1 ≤ b2) : keyLe (humanKey b1) (humanKey b2) := by
  rw [humanKey_eq, humanKey_eq]
  unfold keyLe
  rcases lt_or_eq_of_le (uIdx_mono h) with hlt | heq
  · exact Or.inl hlt
  · right
    refine ⟨heq, ?_⟩
    show toFixed2Int (b1 / 1024 ^ uIdx b1) ≤ toFixed2Int (b2 / 1024 ^ uIdx b2)
    rw [heq]
    apply toFixed2Int_mono
    have hc : (0:ℚ) < 1024 ^ uIdx b2 := by positivity
    exact (div_le_div_iff_of_pos_right hc).mpr h

lemma humanBytes_key_congr {b1 b2 : ℚ} (hk : humanKey b1 = humanKey b2) :
    humanBytes b1 = humanBytes b2 := by
  rw [humanKey_eq, humanKey_eq] at hk
  have hidx : uIdx b1 = uIdx b2 := congrArg Prod.fst hk
  have hval : toFixed2Int (b1 / 1024 ^ uIdx b1) = toFixed2Int (b2 / 1024 ^ uIdx b2) :=
    congrArg Prod.snd hk
  show toFixed2 (humanLoop 4 b1 0).1 ++ " " ++ byteUnits.getD (humanLoop 4 b1 0).2 "bytes"
    = toFixed2 (humanLoop 4 b2 0).1 ++ " " ++ byteUnits.getD (humanLoop 4 b2 0).2 "bytes"
  rw [humanLoop_eq b1, humanLoop_eq b2]
  show toFixed2 (b1 / 1024 ^ uIdx b1) ++ " " ++ byteUnits.getD (uIdx b1) "bytes"
    = toFixed2 (b2 / 1024 ^ uIdx b2) ++ " " ++ byteUnits.getD (uIdx b2) "bytes"
  unfold toFixed2
  rw [hval, hidx]

lemma humanBytes_zero : humanBytes 0 = "0.00 bytes" := by
  have hl : humanLoop 4 (0:ℚ) 0 = (0, 0) := humanLoop_stop 4 0 0 (by norm_num)
  show toFixed2 (humanLoop 4 (0:ℚ) 0).1 ++ " "
    ++ byteUnits.getD (humanLoop 4 (0:ℚ) 0).2 "bytes" = "0.00 bytes"
  rw [hl]
  have hf : toFixed2Int (0:ℚ) = 0 := by
    unfold toFixed2Int
    norm_num
  show toFixed2 (0:ℚ) ++ " " ++ byteUnits.getD 0 "bytes" = "0.00 bytes"
  unfold toFixed2
  rw [hf]
  decide

lemma humanBytes_1024 : humanBytes 1024 = "1.00 KB" := by
  have hl : humanLoop 4 (1024:ℚ) 0 = (1, 1) := by
    rw [humanLoop_step 3 1024 0 (le_refl _) (by omega)]
    have e : (1024:ℚ) / 1024 = 1 := by norm_num
    rw [e]
    exact humanLoop_stop 3 1 1 (by norm_num)
  show toFixed2 (humanLoop 4 (1024:ℚ) 0).1 ++ " "
    ++ byteUnits.getD (humanLoop 4 (1024:ℚ) 0).2 "bytes" = "1.00 KB"
  rw [hl]
  have hf : toFixed2Int (1:ℚ) = 100 := by
    unfold toFixed2Int
    norm_num
  show toFixed2 (1:ℚ) ++ " " ++ byteUnits.getD 1 "bytes" = "1.00 KB"
  unfold toFixed2
  rw [hf]
  decide

lemma humanBytes_1048576 : humanBytes 1048576 = "1.00 MB" := by
  have hl : humanLoop 4 (1048576:ℚ) 0 = (1, 2) := by
    rw [humanLoop_step 3 1048576 0 (by norm_num) (by omega)]
    have e1 : (1048576:ℚ) / 1024 = 1024 := by norm_num
    rw [e1, humanLoop_step 2 1024 1 (le_refl _) (by omega)]
    have e2 : (1024:ℚ) / 1024 = 1 := by norm_num
    rw [e2]
    exact humanLoop_stop 2 1 2 (by norm_num)
  show toFixed2 (humanLoop 4 (1048576:ℚ) 0).1 ++ " "
    ++ byteUnits.getD (humanLoop 4 (1048576:ℚ) 0).2 "bytes" = "1.00 MB"
  rw [hl]
  have hf : toFixed2Int (1:ℚ) = 100 := by
    unfold toFixed2Int
    norm_num
  show toFixed2 (1:ℚ) ++ " " ++ byteUnits.getD 2 "bytes" = "1.00 MB"
  unfold toFixed2
  rw [hf]
  decide

lemma humanBytes_1073741824 : humanBytes 1073741824 = "1.00 GB" := by
  have hl : humanLoop 4 (1073741824:ℚ) 0 = (1, 3) := by
    rw [humanLoop_step 3 1073741824 0 (by norm_num) (by omega)]
    have e1 : (1073741824:ℚ) / 1024 = 1048576 := by norm_num
    rw [e1, humanLoop_step 2 1048576 1 (by norm_num) (by omega)]
    have e2 : (1048576:ℚ) / 1024 = 1024 := by norm_num
    rw [e2, humanLoop_step 1 1024 2 (le_refl _) (by omega)]
    have e3 : (1024:ℚ) / 1024 = 1 := by norm_num
    rw [e3]
    exact humanLoop_stop 1 1 3 (by norm_num)
  show toFixed2 (humanLoop 4 (1073741824:ℚ) 0).1 ++ " "
    ++ byteUnits.getD (humanLoop 4 (1073741824:ℚ) 0).2 "bytes" = "1.00 GB"
  rw [hl]
  have hf : toFixed2Int (1:ℚ) = 100 := by
    unfold toFixed2Int
    norm_num
  show toFixed2 (1:ℚ) ++ " " ++ byteUnits.getD 3 "bytes" = "1.00 GB"
  unfold toFixed2
  rw [hf]
  decide

/-- C9: `humanBytes` is monotone non-decreasing with respect to the scaled
value-and-unit key it renders (the rendered string is a function of that key,
and the key is monotone in the byte argument), and it hits the exact strings
at the 1024-based unit boundaries with two-decimal precision. -/
theorem humanBytes_monotone_boundaries :
    (∀ b1 b2 : ℚ, b1 ≤ b2 → keyLe (humanKey b1) (humanKey b2)) ∧
    (∀ b1 b2 : ℚ, humanKey b1 = humanKey b2 → humanBytes b1 = humanBytes b2) ∧
    humanBytes 0 = "0.00 bytes" ∧ humanBytes 1024 = "1.00 KB" ∧
    humanBytes 1048576 = "1.00 MB" ∧ humanBytes 1073741824 = "1.00 GB" :=
  ⟨fun _ _ h => humanKey_mono h, fun _ _ hk => humanBytes_key_congr hk,
   humanBytes_zero, humanBytes_1024, humanBytes_1048576, humanBytes_1073741824⟩

theorem humanBytes_monotone_boundaries_witness :
    (500:ℚ) ≤ 2048 ∧ keyLe (humanKey 500) (humanKey 2048) :=
  ⟨by norm_num, humanBytes_monotone_boundaries.1 500 2048 (by norm_num)⟩

end AgenticChatbot
